/-
  Verification of the Queue transcode-job orchestrator (helper_func/mux.py)
  against its natural-language specification.

  The file shallowly embeds the Python source:
  * `parse_progress` / `scanMatches`  — the regex scan
      re.findall((frame|fps|size|time|bitrate|speed)\s*=\s*(\S+), line)
      together with the dict comprehension of mux.py lines 20-24;
  * `pyRound` / `throttleFires`       — the `round(elapsed) % 5 == 0` throttle,
      mux.py line 54 (Python banker's rounding, modelled on rationals);
  * `renderProgress` / `read_stderr`  — the progress-rendering and
      notifier loop, mux.py lines 38-58;
  * `splitDelims` / `readlines`       — the byte-stream line demuxer,
      mux.py lines 26-36 (re.split(b"[\r\n]+", data) over 1024-byte chunks);
  * `register` / `unregister` / `Registry` — the global `running_jobs` dict,
      mux.py lines 15, 88, 97, 160, 169;
  * `softmux_vid` / `hardmux_vid`     — the post-launch behaviour of the two
      job runners (argument vectors, registry lifecycle, return value and
      failure message), mux.py lines 63-113 and 118-185.

  Texts are modelled as `List Char` where character-level reasoning is
  needed and as `String` elsewhere; bytes are `Nat`.
-/
import Mathlib

namespace VkQueue

/-! ## Progress extractor (mux.py lines 20-24)

Python: `progress_pattern = re.compile(r'(frame|fps|size|time|bitrate|speed)\s*=\s*(\S+)')`
and `parse_progress(line) = ({k: v for k, v in progress_pattern.findall(line)}) or None`.

The regex scan is embedded faithfully for the ASCII fragment of `\s`
(the source lines are decoded ffmpeg stderr, which is ASCII): `re.findall`
scans left to right, at each position trying the six field alternatives in
order, then greedy `\s*`, a literal `=`, greedy `\s*` and a maximal nonempty
run of non-whitespace as the captured value; matches never overlap, and the
scan resumes after the end of each match. -/

/-- The six known progress fields. -/
inductive Field where
  | frame | fps | size | time | bitrate | speed
deriving DecidableEq, Repr

/-- Literal text of each field alternative. -/
def fieldName : Field → List Char
  | Field.frame => "frame".data
  | Field.fps => "fps".data
  | Field.size => "size".data
  | Field.time => "time".data
  | Field.bitrate => "bitrate".data
  | Field.speed => "speed".data

/-- The alternation order of the regex `(frame|fps|size|time|bitrate|speed)`. -/
def fieldOrder : List Field :=
  [Field.frame, Field.fps, Field.size, Field.time, Field.bitrate, Field.speed]

/-- ASCII fragment of Python regex `\s` (space, tab, LF, VT, FF, CR). -/
def pySpace (c : Char) : Bool :=
  c = ' ' || c = '\t' || c = '\n' || c = Char.ofNat 11 || c = Char.ofNat 12 || c = '\r'

/-- Drop an expected literal from the front of a character list
(the regex engine consuming one field alternative). -/
def dropPre? : List Char → List Char → Option (List Char)
  | [], s => some s
  | _ :: _, [] => none
  | p :: ps, c :: cs => if p = c then dropPre? ps cs else none

/-- After a field literal: consume greedy `\s*`, a literal `=`, greedy `\s*`,
then a maximal nonempty run of non-whitespace (the captured value).
Returns the value and the remainder of the line after the match. -/
def matchAfterField (s : List Char) : Option (List Char × List Char) :=
  match s.dropWhile pySpace with
  | [] => none
  | c :: s2 =>
    if c = '=' then
      if (s2.dropWhile pySpace).takeWhile (fun ch => ! pySpace ch) = [] then none
      else some ((s2.dropWhile pySpace).takeWhile (fun ch => ! pySpace ch),
        (s2.dropWhile pySpace).drop
          ((s2.dropWhile pySpace).takeWhile (fun ch => ! pySpace ch)).length)
    else none

/-- Try to match one specific field alternative at the head of `s`. -/
def tryMatchField (f : Field) (s : List Char) : Option (List Char × List Char) :=
  (dropPre? (fieldName f) s).bind matchAfterField

/-- Try the whole pattern at the head of `s`: the six alternatives in
regex alternation order. -/
def tryMatch (s : List Char) : Option (Field × List Char × List Char) :=
  fieldOrder.findSome? fun f =>
    (tryMatchField f s).map fun vr => (f, vr.1, vr.2)

/-- Fuel-indexed worker for the regex scan; the fuel only bounds the
recursion (each step consumes at least one character, so `s.length` fuel
always suffices and the zero-fuel case is unreachable from
`scanMatches`). -/
def scanGo : Nat → List Char → List (Field × List Char)
  | _, [] => []
  | 0, _ :: _ => []
  | fuel + 1, c :: rest =>
    match tryMatch (c :: rest) with
    | some (f, v, after) => (f, v) :: scanGo fuel after
    | none => scanGo fuel rest

/-- `re.findall` of the progress pattern: scan left to right, matches do not
overlap, the scan resumes after each match (mux.py line 23). -/
def scanMatches (s : List Char) : List (Field × List Char) :=
  scanGo s.length s

/-- `parse_progress` (mux.py lines 22-24): the dict of all scanned pairs,
or `none` when no field matched (`items or None`; a Python dict built from
a pair list is its association list with the last binding for a key
winning, read off by `snapshotGet`). -/
def parse_progress (line : List Char) : Option (List (Field × List Char)) :=
  let items := scanMatches line
  if items = [] then none else some items

/-- Dict lookup for a pair list built by a Python dict comprehension:
the last pair for the key wins (`prog.get(k)`). -/
def snapshotGet (items : List (Field × List Char)) (f : Field) : Option (List Char) :=
  ((items.filter fun p => p.1 == f).getLast?).map Prod.snd

/-- The claim's notion of occurrence: field `f` occurs in `line` as
`f` `\s*` `=` `\s*` `value` with `value` a maximal nonempty whitespace-free
token, at some position. -/
def occursB (line : List Char) (f : Field) (v : List Char) : Bool :=
  (List.range (line.length + 1)).any fun i =>
    match tryMatchField f (line.drop i) with
    | some (v', _) => v' == v
    | none => false

/-! ## Progress notifier throttle (mux.py line 54)

Python: `if round(elapsed) % 5 == 0`. `round` with no digits is Python's
round-half-to-even; elapsed wall-clock time is modelled as a rational. -/

/-- Python `round(x)` on a rational: nearest integer, halves to even. -/
def pyRound (q : ℚ) : ℤ :=
  if q - (⌊q⌋ : ℚ) < 1/2 then ⌊q⌋
  else if (1:ℚ)/2 < q - (⌊q⌋ : ℚ) then ⌊q⌋ + 1
  else if ⌊q⌋ % 2 = 0 then ⌊q⌋ else ⌊q⌋ + 1

/-- The throttle decision `round(elapsed) % 5 == 0` (mux.py line 54);
Python `%` on integers agrees with `Int.emod` for a positive modulus. -/
def throttleFires (elapsed : ℚ) : Bool :=
  pyRound elapsed % 5 == 0

/-! ## Progress rendering and the stderr reader loop (mux.py lines 38-58)

The loop decodes each line, parses progress, renders the summary text and,
when the throttle fires, attempts `msg.edit(text)` inside
`try: ... except: pass`.  The notifier is modelled as a function from the
attempt index to the outcome of that edit call (`Except.error` = the call
raised); per-line elapsed time is a function from the line index to the
elapsed seconds at that line. -/

/-- The rendered progress summary (mux.py lines 47-52): only the `size`,
`time` and `speed` fields are shown, each defaulted to `"N/A"` when absent
(`prog.get(k, 'N/A')`). -/
def renderProgress (items : List (Field × List Char)) : List Char :=
  "🔄 <b>Progress</b>\n• Size   : ".data ++
    ((snapshotGet items Field.size).getD "N/A".data) ++
  "\n• Time   : ".data ++
    ((snapshotGet items Field.time).getD "N/A".data) ++
  "\n• Speed  : ".data ++
    ((snapshotGet items Field.speed).getD "N/A".data)

/-- The body of `read_stderr` (mux.py lines 40-58) over the list of demuxed
lines.  `i` is the line index, `attempts` counts edit attempts so far.
Returns, for every attempted edit, the rendered text and whether the edit
call succeeded; a raised edit (`Except.error`) is swallowed by the bare
`except: pass` and the loop continues with the next line. -/
def read_stderrGo (edit : Nat → Except String Unit) (elapsedAt : Nat → ℚ) :
    Nat → Nat → List (List Char) → List (List Char × Bool)
  | _, _, [] => []
  | i, attempts, l :: ls =>
    match parse_progress l with
    | none => read_stderrGo edit elapsedAt (i + 1) attempts ls
    | some items =>
      if throttleFires (elapsedAt i) then
        match edit attempts with
        | Except.ok _ =>
          (renderProgress items, true) :: read_stderrGo edit elapsedAt (i + 1) (attempts + 1) ls
        | Except.error _ =>
          (renderProgress items, false) :: read_stderrGo edit elapsedAt (i + 1) (attempts + 1) ls
      else read_stderrGo edit elapsedAt (i + 1) attempts ls

/-- `read_stderr` (mux.py lines 38-58): the full loop from the first line. -/
def read_stderr (edit : Nat → Except String Unit) (elapsedAt : Nat → ℚ)
    (lines : List (List Char)) : List (List Char × Bool) :=
  read_stderrGo edit elapsedAt 0 0 lines

/-! ## Line demuxer (mux.py lines 26-36)

Python:
```
pattern = re.compile(br"[\r\n]+")
data = bytearray()
while not stream.at_eof():
    parts = pattern.split(data)
    data[:] = parts.pop(-1)
    for line in parts: yield line
    data.extend(await stream.read(1024))
```
Bytes are `Nat`.  `splitDelims` embeds `re.split(b"[\r\n]+", data)`: the
result is the (possibly empty) delimiter-free segments between maximal
CR/LF runs, with a leading/trailing empty segment when the data
starts/ends with a delimiter; it is never the empty list.

The stream is modelled as the list of chunks successively returned by
`stream.read(1024)`.  An `asyncio` stream returns the final data chunk
first and only afterwards reports EOF, so the loop runs once more after
the last data chunk with an empty read before `at_eof()` becomes true;
`readlines` therefore appends an empty final read to the chunk list. -/

/-- Is a byte a CR or LF (the character class `[\r\n]`)? -/
def isDelim (b : Nat) : Bool := b == 13 || b == 10

/-- Worker for `re.split(b"[\r\n]+", data)`: `cur` is the segment
accumulated so far (reversed), `inRun` whether the previous byte was part
of a CR/LF run. -/
def splitGo : List Nat → List Nat → Bool → List (List Nat)
  | [], cur, _ => [cur.reverse]
  | b :: rest, cur, inRun =>
    if isDelim b then
      if inRun then splitGo rest [] true
      else cur.reverse :: splitGo rest [] true
    else splitGo rest (b :: cur) false

/-- `re.split(b"[\r\n]+", data)` (mux.py lines 28, 32). -/
def splitDelims (data : List Nat) : List (List Nat) :=
  splitGo data [] false

/-- A byte list with all CR/LF bytes removed. -/
def stripDelims (data : List Nat) : List Nat :=
  data.filter fun b => ! isDelim b

/-- The loop of `readlines` (mux.py lines 31-36): one iteration per chunk
still to be read; when no read remains, `at_eof()` is true and the loop
exits, discarding the buffered `data`. -/
def readlinesGo : List (List Nat) → List Nat → List (List Nat)
  | [], _ => []
  | c :: cs, data =>
    (splitDelims data).dropLast ++
      readlinesGo cs (((splitDelims data).getLast?.getD []) ++ c)

/-- The buffer contents when the loop exits (the discarded unterminated
trailing fragment). -/
def finalBuf : List (List Nat) → List Nat → List Nat
  | [], data => data
  | c :: cs, data => finalBuf cs (((splitDelims data).getLast?.getD []) ++ c)

/-- `readlines` (mux.py lines 26-36) on a stream delivered as `chunks`;
the trailing `[]` is the empty final read at EOF. -/
def readlines (chunks : List (List Nat)) : List (List Nat) :=
  readlinesGo (chunks ++ [[]]) []

/-- The unterminated trailing fragment that `readlines` discards. -/
def discardedTail (chunks : List (List Nat)) : List Nat :=
  finalBuf (chunks ++ [[]]) []

/-- Follows the claim's words (spec §4.1): splitting the whole stream on
maximal runs of one-or-more contiguous CR/LF bytes, each run acting as a
single delimiter, and discarding the unterminated trailing fragment. -/
def specSingleDelimiterLines (stream : List Nat) : List (List Nat) :=
  (splitDelims stream).dropLast

/-! ## Job registry (mux.py lines 15, 88, 97, 160, 169)

`running_jobs: dict[str, dict]` is a process-wide Python dict from the
8-hex-character job id to `{'proc': ..., 'tasks': [reader, waiter],
'type': 'soft'|'hard'}`.  A Python dict is semantically a finite map, so
the registry is modelled as `String → Option JobEntry`; the three
operations used by the source are plain assignment (`running_jobs[id] = e`),
`running_jobs.pop(id, None)` and lookup. -/

/-- One registry entry: `{'proc': proc, 'tasks': [reader, waiter],
'type': 'soft'|'hard'}` with the process and task objects as abstract
handles. -/
structure JobEntry where
  proc : Nat
  tasks : List Nat
  jobType : String
deriving DecidableEq, Repr

/-- The registry state. -/
def Registry : Type := String → Option JobEntry

/-- The registry with no live jobs (mux.py line 15). -/
def emptyRegistry : Registry := fun _ => none

/-- `running_jobs[job_id] = entry` (mux.py lines 88 and 160): plain dict
assignment — the spec's `register(id, job)`. -/
def register (r : Registry) (id : String) (e : JobEntry) : Registry :=
  fun k => if k = id then some e else r k

/-- `running_jobs.pop(job_id, None)` (mux.py lines 97 and 169) — the
spec's `unregister(id)`. -/
def unregister (r : Registry) (id : String) : Registry :=
  fun k => if k = id then none else r k

/-- The spec's `lookup(id)`. -/
def lookup (r : Registry) (id : String) : Option JobEntry := r id

/-- The outcome vocabulary of the spec's idealised `register`. -/
inductive RegisterResult where
  | ok (r : Registry)
  | duplicateJobError

/-- Modelled from the spec: `register(id, job)` of §4.4, which "inserts a
new entry (fails with `DuplicateJobError` if the id is already live)".
This definition follows the spec's words; no such check exists in the
source, which is exactly what claim C2 is about. -/
def specRegister (r : Registry) (id : String) (e : JobEntry) : RegisterResult :=
  match r id with
  | some _ => RegisterResult.duplicateJobError
  | none => RegisterResult.ok (register r id e)

/-! ## Path handling (os.path.splitext, str.lstrip, os.path.join) -/

/-- Index of the last occurrence of `c` in `l`, or `-1` (Python
`str.rfind`). -/
def rfindIdx (c : Char) (l : List Char) : Int :=
  match (l.enum.filter fun p => p.2 = c).getLast? with
  | some p => (p.1 : Int)
  | none => -1

/-- `os.path.splitext` for POSIX paths: split off the extension at the
last dot of the basename, except that leading dots of the basename never
start an extension. -/
def splitext (p : String) : String × String :=
  let l := p.data
  let sepIndex := rfindIdx '/' l
  let dotIndex := rfindIdx '.' l
  if sepIndex < dotIndex then
    if ((l.drop (sepIndex + 1).toNat).take (dotIndex - (sepIndex + 1)).toNat).all
        (fun ch => ch = '.') then
      (p, "")
    else (String.mk (l.take dotIndex.toNat), String.mk (l.drop dotIndex.toNat))
  else (p, "")

/-- `str.lstrip('.')`: drop leading dots. -/
def lstripDot (s : String) : String :=
  String.mk (s.data.dropWhile fun ch => ch = '.')

/-- `os.path.join(dir, name)` for the simple case used here (a relative
file name under the download directory). -/
def pathJoin (dir name : String) : String :=
  dir ++ "/" ++ name

/-! ## The two job runners (mux.py lines 63-113 and 118-185)

Both runners are embedded from the point where their behaviour is
deterministic in their inputs: the argument vector they build, the
registry states while running and after both background tasks complete,
the returned value, and the failure message they report.  The process is
abstracted as its exit code together with the decoded text produced by
draining the remaining stderr (`(await proc.stderr.read()).decode(errors='ignore')`).
Wall-clock texts (the started/completed notifications) involve only
elapsed time and the job id and are not needed by any claim. -/

/-- The abstracted external process at exit time. -/
structure Proc where
  returncode : Int
  remainingStderr : String
deriving DecidableEq, Repr

/-- What a runner returns to its caller: Python `str` (the output file
name) on success, or Python `False` on failure — a bare sentinel with no
payload. -/
inductive MuxRet where
  | filename (s : String)
  | failure
deriving DecidableEq, Repr

/-- Everything a runner call determines: the ffmpeg argument vector, the
registry while the job runs and after both tasks finish, the failure
message (if any) and the returned value. -/
structure MuxOutcome where
  args : List String
  registryDuring : Registry
  registryAfter : Registry
  failMsg : Option String
  ret : MuxRet

/-- The per-user settings dict returned by `SettingsManager.get(user_id)`;
`cfgGet c k d` is Python `cfg.get(k, d)`. -/
def Cfg : Type := String → Option String

/-- A settings store with no stored values. -/
def emptyCfg : Cfg := fun _ => none

/-- Python `cfg.get(key, default)`. -/
def cfgGet (c : Cfg) (key default : String) : String :=
  (c key).getD default

/-- The soft-mux ffmpeg argument vector (mux.py lines 72-83). -/
def softmux_args (vid_path sub_path out_path sub_ext : String) : List String :=
  ["ffmpeg", "-hide_banner",
   "-i", vid_path,
   "-i", sub_path,
   "-map", "1:0", "-map", "0",
   "-disposition:s:0", "default",
   "-c:v", "copy", "-c:a", "copy",
   "-c:s", sub_ext,
   "-y", out_path]

/-- The hard-mux filter chain `vf` (mux.py lines 124-136): always the
subtitles filter, plus `scale` unless resolution is `'original'`, plus
`fps` unless the frame rate is `'original'`.  The defaults for a store
with no value are `'1920:1080'` and `'original'` respectively. -/
def hardmux_vf (cfg : Cfg) (sub_path : String) : List String :=
  ("subtitles=" ++ sub_path) ::
    ((if cfgGet cfg "resolution" "1920:1080" ≠ "original"
      then ["scale=" ++ cfgGet cfg "resolution" "1920:1080"] else []) ++
     (if cfgGet cfg "fps" "original" ≠ "original"
      then ["fps=" ++ cfgGet cfg "fps" "original"] else []))

/-- The hard-mux ffmpeg argument vector (mux.py lines 142-155); codec,
preset and crf are always passed, with defaults `'libx264'`, `'faster'`,
`'27'`. -/
def hardmux_args (cfg : Cfg) (vid_path sub_path out_path : String) : List String :=
  ["ffmpeg", "-hide_banner",
   "-i", vid_path,
   "-vf", String.intercalate "," (hardmux_vf cfg sub_path),
   "-c:v", cfgGet cfg "codec" "libx264",
   "-preset", cfgGet cfg "preset" "faster",
   "-crf", cfgGet cfg "crf" "27",
   "-map", "0:v:0",
   "-map", "0:a:0?",
   "-c:a", "copy",
   "-y", out_path]

/-- `softmux_vid` (mux.py lines 63-113) from launch to return.  `reg` is
the registry when the call registers the job, `job_id` the generated
8-hex id, `procH`/`readerH`/`waiterH` the abstract process and task
handles, `p` the process outcome. -/
def softmux_vid (reg : Registry) (job_id : String) (download_dir : String)
    (vid_filename sub_filename : String) (procH readerH waiterH : Nat)
    (p : Proc) : MuxOutcome :=
  let output := (splitext vid_filename).1 ++ "_soft.mkv"
  let entry : JobEntry := ⟨procH, [readerH, waiterH], "soft"⟩
  let regDuring := register reg job_id entry
  let regAfter := unregister regDuring job_id
  { args := softmux_args (pathJoin download_dir vid_filename)
      (pathJoin download_dir sub_filename)
      (pathJoin download_dir output)
      (lstripDot (splitext sub_filename).2)
    registryDuring := regDuring
    registryAfter := regAfter
    failMsg := if p.returncode = 0 then none
      else some ("❌ Error during soft-mux!\n\n<pre>" ++ p.remainingStderr ++ "</pre>")
    ret := if p.returncode = 0 then MuxRet.filename output else MuxRet.failure }

/-- `hardmux_vid` (mux.py lines 118-185) from launch to return; `cfg` is
the per-user settings store. -/
def hardmux_vid (reg : Registry) (job_id : String) (download_dir : String)
    (cfg : Cfg) (vid_filename sub_filename : String) (procH readerH waiterH : Nat)
    (p : Proc) : MuxOutcome :=
  let output := (splitext vid_filename).1 ++ "_hard.mp4"
  let entry : JobEntry := ⟨procH, [readerH, waiterH], "hard"⟩
  let regDuring := register reg job_id entry
  let regAfter := unregister regDuring job_id
  { args := hardmux_args cfg (pathJoin download_dir vid_filename)
      (pathJoin download_dir sub_filename)
      (pathJoin download_dir output)
    registryDuring := regDuring
    registryAfter := regAfter
    failMsg := if p.returncode = 0 then none
      else some ("❌ Error during hard-mux!\n\n<pre>" ++ p.remainingStderr ++ "</pre>")
    ret := if p.returncode = 0 then MuxRet.filename output else MuxRet.failure }

/-! ## Supporting lemmas about the regex matcher -/

lemma dropPre?_length_le :
    ∀ (p s t : List Char), dropPre? p s = some t → t.length ≤ s.length := by
  intro p
  induction p with
  | nil =>
    intro s t h
    injection h with h
    exact le_of_eq (congrArg List.length h.symm)
  | cons a ps ih =>
    intro s t h
    cases s with
    | nil => exact absurd h (by simp [dropPre?])
    | cons c cs =>
      simp only [dropPre?] at h
      split at h
      · exact Nat.le_trans (ih cs t h) (Nat.le_succ _)
      · exact absurd h (by simp)

lemma matchAfterField_length_lt :
    ∀ (s v r : List Char), matchAfterField s = some (v, r) → r.length < s.length := by
  intro s v r h
  unfold matchAfterField at h
  split at h
  · exact absurd h (by simp)
  · rename_i c s2 hdw
    split at h
    · split at h
      · exact absurd h (by simp)
      · rename_i hv
        have hinj := Option.some.inj h
        have hv1 : (s2.dropWhile pySpace).takeWhile (fun ch => ! pySpace ch) = v :=
          congrArg Prod.fst hinj
        have hr1 : (s2.dropWhile pySpace).drop
            ((s2.dropWhile pySpace).takeWhile (fun ch => ! pySpace ch)).length = r :=
          congrArg Prod.snd hinj
        have hvpos : 0 < ((s2.dropWhile pySpace).takeWhile (fun ch => ! pySpace ch)).length := by
          cases hcase : (s2.dropWhile pySpace).takeWhile (fun ch => ! pySpace ch) with
          | nil => exact absurd hcase hv
          | cons x xs => simp [hcase]
        have htw : ((s2.dropWhile pySpace).takeWhile (fun ch => ! pySpace ch)).length ≤
            (s2.dropWhile pySpace).length :=
          (List.takeWhile_sublist _).length_le
        have hr2 : r.length = (s2.dropWhile pySpace).length -
            ((s2.dropWhile pySpace).takeWhile (fun ch => ! pySpace ch)).length := by
          rw [← hr1, List.length_drop]
        have hs2 : (s2.dropWhile pySpace).length ≤ s2.length :=
          (List.dropWhile_sublist _).length_le
        have hslen : s2.length < s.length := by
          have h1 : (c :: s2).length ≤ s.length := hdw ▸ (List.dropWhile_sublist _).length_le
          simpa using h1
        omega
    · exact absurd h (by simp)

lemma tryMatchField_length_lt {f : Field} {s v r : List Char}
    (h : tryMatchField f s = some (v, r)) : r.length < s.length := by
  unfold tryMatchField at h
  cases hdp : dropPre? (fieldName f) s with
  | none => rw [hdp] at h; exact absurd h (by simp)
  | some t =>
    rw [hdp] at h
    simp only [Option.some_bind] at h
    exact Nat.lt_of_lt_of_le (matchAfterField_length_lt t v r h) (dropPre?_length_le _ _ _ hdp)

lemma tryMatch_eq_some {s : List Char} {f : Field} {v after : List Char}
    (h : tryMatch s = some (f, v, after)) : tryMatchField f s = some (v, after) := by
  unfold tryMatch at h
  obtain ⟨g, -, hg⟩ := List.exists_of_findSome?_eq_some h
  cases hgf : tryMatchField g s with
  | none => rw [hgf] at hg; exact absurd hg (by simp)
  | some vr =>
    rw [hgf] at hg
    simp only [Option.map_some'] at hg
    have hinj := Option.some.inj hg
    have h1 : g = f := congrArg (fun x => x.1) hinj
    have h2 : vr.1 = v := congrArg (fun x => x.2.1) hinj
    have h3 : vr.2 = after := congrArg (fun x => x.2.2) hinj
    subst h1
    rw [hgf, ← h2, ← h3]

lemma tryMatch_length_lt {s : List Char} {f : Field} {v after : List Char}
    (h : tryMatch s = some (f, v, after)) : after.length < s.length :=
  tryMatchField_length_lt (tryMatch_eq_some h)

lemma tryMatchField_nil (f : Field) : tryMatchField f [] = none := by
  cases f <;> rfl

lemma tryMatch_nil : tryMatch [] = none := rfl

lemma mem_fieldOrder : ∀ f : Field, f ∈ fieldOrder := by
  intro f
  cases f <;> simp [fieldOrder]

lemma tryMatchField_eq_none_of_tryMatch {s : List Char} (h : tryMatch s = none)
    (f : Field) : tryMatchField f s = none := by
  unfold tryMatch at h
  rw [List.findSome?_eq_none_iff] at h
  have hf := h f (mem_fieldOrder f)
  exact Option.map_eq_none'.mp hf

lemma dropPre?_eq_drop :
    ∀ (p s t : List Char), dropPre? p s = some t → t = s.drop p.length := by
  intro p
  induction p with
  | nil =>
    intro s t h
    injection h with h
    simp [← h]
  | cons a ps ih =>
    intro s t h
    cases s with
    | nil => exact absurd h (by simp [dropPre?])
    | cons c cs =>
      simp only [dropPre?] at h
      split at h
      · simpa using ih cs t h
      · exact absurd h (by simp)

lemma dropWhile_eq_drop (P : Char → Bool) (l : List Char) :
    l.dropWhile P = l.drop (l.takeWhile P).length := by
  have h := @List.drop_left' _ (l.takeWhile P) (l.dropWhile P) (l.takeWhile P).length rfl
  rw [List.takeWhile_append_dropWhile] at h
  exact h.symm

lemma matchAfterField_after_drop {s v r : List Char}
    (h : matchAfterField s = some (v, r)) : ∃ k, r = s.drop k := by
  unfold matchAfterField at h
  split at h
  · exact absurd h (by simp)
  · rename_i c s2 hdw
    split at h
    · split at h
      · exact absurd h (by simp)
      · have hr : (s2.dropWhile pySpace).drop
            ((s2.dropWhile pySpace).takeWhile (fun ch => ! pySpace ch)).length = r :=
          congrArg Prod.snd (Option.some.inj h)
        have hcs2 : c :: s2 = s.drop (s.takeWhile pySpace).length := by
          rw [← dropWhile_eq_drop]; exact hdw.symm
        have hs2 : s2 = s.drop ((s.takeWhile pySpace).length + 1) := by
          have h1 : s2 = (c :: s2).drop 1 := rfl
          rw [h1, hcs2, List.drop_drop]
        have hs3 : s2.dropWhile pySpace
            = s.drop ((s.takeWhile pySpace).length + 1 + (s2.takeWhile pySpace).length) := by
          rw [dropWhile_eq_drop, hs2, List.drop_drop]
        refine ⟨(s.takeWhile pySpace).length + 1 + (s2.takeWhile pySpace).length
          + ((s2.dropWhile pySpace).takeWhile (fun ch => ! pySpace ch)).length, ?_⟩
        rw [← hr, hs3, List.drop_drop]
    · exact absurd h (by simp)

lemma tryMatchField_after_drop {f : Field} {s v r : List Char}
    (h : tryMatchField f s = some (v, r)) : ∃ k, r = s.drop k := by
  unfold tryMatchField at h
  cases hdp : dropPre? (fieldName f) s with
  | none => rw [hdp] at h; exact absurd h (by simp)
  | some t =>
    rw [hdp] at h
    simp only [Option.some_bind] at h
    obtain ⟨k, hk⟩ := matchAfterField_after_drop h
    refine ⟨(fieldName f).length + k, ?_⟩
    rw [hk, dropPre?_eq_drop _ _ _ hdp, List.drop_drop]

lemma occursB_of_tryMatchField {line : List Char} {f : Field} {v : List Char}
    {i : Nat} {r : List Char}
    (h : tryMatchField f (line.drop i) = some (v, r)) : occursB line f v = true := by
  unfold occursB
  rw [List.any_eq_true]
  by_cases hi : i ≤ line.length
  · refine ⟨i, List.mem_range.mpr (Nat.lt_succ_of_le hi), ?_⟩
    rw [h]
    simp
  · exfalso
    rw [List.drop_eq_nil_of_le (Nat.le_of_lt (Nat.lt_of_not_le hi))] at h
    rw [tryMatchField_nil] at h
    exact absurd h (by simp)

lemma tryMatchField_of_occursB {line : List Char} {f : Field} {v : List Char}
    (h : occursB line f v = true) :
    ∃ i r, tryMatchField f (line.drop i) = some (v, r) := by
  unfold occursB at h
  rw [List.any_eq_true] at h
  obtain ⟨i, -, hi⟩ := h
  cases hm : tryMatchField f (line.drop i) with
  | none => rw [hm] at hi; exact absurd hi (by simp)
  | some vr =>
    rw [hm] at hi
    simp only [beq_iff_eq] at hi
    exact ⟨i, vr.2, by rw [hm, ← hi]⟩

lemma scanGo_eq_nil_no_match :
    ∀ (fuel : Nat) (s : List Char), s.length ≤ fuel → scanGo fuel s = [] →
      ∀ i, tryMatch (s.drop i) = none := by
  intro fuel
  induction fuel with
  | zero =>
    intro s hs _ i
    have h0 : s = [] := List.eq_nil_of_length_eq_zero (Nat.le_zero.mp hs)
    subst h0
    rw [List.drop_nil]
    exact tryMatch_nil
  | succ fuel ih =>
    intro s hs hscan i
    cases s with
    | nil =>
      rw [List.drop_nil]
      exact tryMatch_nil
    | cons c rest =>
      simp only [scanGo] at hscan
      cases hm : tryMatch (c :: rest) with
      | some fva =>
        obtain ⟨f0, v0, after⟩ := fva
        rw [hm] at hscan
        exact absurd hscan (by simp)
      | none =>
        rw [hm] at hscan
        cases i with
        | zero => simpa using hm
        | succ i =>
          rw [List.drop_succ_cons]
          exact ih rest (by simpa using Nat.le_of_succ_le_succ (by simpa using hs)) hscan i

lemma scanGo_mem_occurs :
    ∀ (fuel : Nat) (s : List Char), s.length ≤ fuel →
      ∀ f v, (f, v) ∈ scanGo fuel s →
        ∃ i r, tryMatchField f (s.drop i) = some (v, r) := by
  intro fuel
  induction fuel with
  | zero =>
    intro s hs f v hmem
    have h0 : s = [] := List.eq_nil_of_length_eq_zero (Nat.le_zero.mp hs)
    subst h0
    exact absurd hmem (by simp [scanGo])
  | succ fuel ih =>
    intro s hs f v hmem
    cases s with
    | nil => exact absurd hmem (by simp [scanGo])
    | cons c rest =>
      simp only [scanGo] at hmem
      cases hm : tryMatch (c :: rest) with
      | none =>
        rw [hm] at hmem
        obtain ⟨i, r, hir⟩ := ih rest
          (by simpa using Nat.le_of_succ_le_succ (by simpa using hs)) f v hmem
        exact ⟨i + 1, r, by rwa [List.drop_succ_cons]⟩
      | some fva =>
        obtain ⟨f0, v0, after⟩ := fva
        rw [hm] at hmem
        rcases List.mem_cons.mp hmem with heq | htail
        · have hf : f = f0 := congrArg Prod.fst heq
          have hv : v = v0 := congrArg Prod.snd heq
          subst hf; subst hv
          exact ⟨0, after, by rw [List.drop_zero]; exact tryMatch_eq_some hm⟩
        · have hlt : after.length < (c :: rest).length := tryMatch_length_lt hm
          have hfuel : after.length ≤ fuel := by
            simp only [List.length_cons] at hlt hs
            omega
          obtain ⟨i, r, hir⟩ := ih after hfuel f v htail
          obtain ⟨k, hk⟩ := tryMatchField_after_drop (tryMatch_eq_some hm)
          refine ⟨k + i, r, ?_⟩
          rw [hk] at hir
          rwa [List.drop_drop] at hir

/-! ## Claim C5 -/

/-- Claim C5: for every elapsed wall-clock time since job start, the
throttle fires if and only if the elapsed seconds rounded to the nearest
integer (Python `round`, halves to even; `pyRound` is within 1/2 of the
exact value) are congruent to 0 modulo 5; integer elapsed values 0, 5, 10
fire and 1..4, 6..9 do not. -/
theorem throttle_fires_iff_round_mod_five :
    (∀ e : ℚ, throttleFires e = true ↔ pyRound e % 5 = 0) ∧
    (∀ n : ℤ, throttleFires (n : ℚ) = true ↔ n % 5 = 0) ∧
    (∀ e : ℚ, |e - (pyRound e : ℚ)| ≤ 1/2) ∧
    (throttleFires 0 = true ∧ throttleFires 5 = true ∧ throttleFires 10 = true ∧
      throttleFires 1 = false ∧ throttleFires 2 = false ∧ throttleFires 3 = false ∧
      throttleFires 4 = false ∧ throttleFires 6 = false ∧ throttleFires 7 = false ∧
      throttleFires 8 = false ∧ throttleFires 9 = false) := by
  have hround : ∀ n : ℤ, pyRound (n : ℚ) = n := by
    intro n
    unfold pyRound
    rw [Int.floor_intCast]
    norm_num
  refine ⟨?_, ?_, ?_, ?_⟩
  · intro e; simp [throttleFires]
  · intro n; simp [throttleFires, hround]
  · intro e
    have h1 : (⌊e⌋ : ℚ) ≤ e := Int.floor_le e
    have h2 : e < ⌊e⌋ + 1 := Int.lt_floor_add_one e
    unfold pyRound
    split
    · rename_i hlt
      rw [abs_le]; constructor <;> linarith
    · rename_i hge
      split
      · rename_i hgt
        push_cast
        rw [abs_le]; constructor <;> linarith
      · rename_i hle
        split <;> · push_cast; rw [abs_le]; constructor <;> linarith
  · refine ⟨?_, ?_, ?_, ?_, ?_, ?_, ?_, ?_, ?_, ?_, ?_⟩ <;>
      norm_num [throttleFires, pyRound]

/-! ## Claim C2 -/

/-- Claim C2 counterexample: registering a second job under an id that is
already live does not fail — the source's `running_jobs[job_id] = {...}`
silently replaces the existing entry (the spec-modelled `specRegister`
would report `DuplicateJobError` in exactly this state). -/
theorem register_duplicate_counterexample :
    lookup (register emptyRegistry "ab12cd34" ⟨1, [10, 11], "soft"⟩) "ab12cd34"
        = some ⟨1, [10, 11], "soft"⟩ ∧
    specRegister (register emptyRegistry "ab12cd34" ⟨1, [10, 11], "soft"⟩)
        "ab12cd34" ⟨2, [12, 13], "hard"⟩ = RegisterResult.duplicateJobError ∧
    lookup (register (register emptyRegistry "ab12cd34" ⟨1, [10, 11], "soft"⟩)
        "ab12cd34" ⟨2, [12, 13], "hard"⟩) "ab12cd34" = some ⟨2, [12, 13], "hard"⟩ ∧
    (⟨2, [12, 13], "hard"⟩ : JobEntry) ≠ ⟨1, [10, 11], "soft"⟩ := by
  refine ⟨rfl, rfl, rfl, by decide⟩

/-- Claim C2 amended: registration is a plain dict assignment — it always
succeeds, mapping the id to the new job and silently replacing any entry
already live under that id; entries under other ids are untouched.  No
`DuplicateJobError` (or any other failure path) exists in the code. -/
theorem register_overwrites_live_id :
    ∀ (r : Registry) (id : String) (e : JobEntry),
      lookup (register r id e) id = some e ∧
      ∀ k : String, k ≠ id → lookup (register r id e) k = lookup r k := by
  intro r id e
  constructor
  · simp [lookup, register]
  · intro k hk
    simp [lookup, register, hk]

/-- Witness for C2's amended theorem at a concrete registry. -/
theorem register_overwrites_live_id_witness :
    lookup (register emptyRegistry "aaaa1111" ⟨0, [1, 2], "soft"⟩) "aaaa1111"
        = some ⟨0, [1, 2], "soft"⟩ ∧
    lookup (register emptyRegistry "aaaa1111" ⟨0, [1, 2], "soft"⟩) "bbbb2222"
        = lookup emptyRegistry "bbbb2222" :=
  ⟨(register_overwrites_live_id emptyRegistry "aaaa1111" ⟨0, [1, 2], "soft"⟩).1,
    (register_overwrites_live_id emptyRegistry "aaaa1111" ⟨0, [1, 2], "soft"⟩).2
      "bbbb2222" (by decide)⟩

/-! ## Claim C8 -/

/-- Claim C8: while a job runs its id is in the registry (`lookup`
succeeds, returning the entry with the process handle, the two background
tasks and the variant tag); after both background activities finish the
runner pops the id and `lookup` returns not-found, regardless of the
process outcome; and `unregister` (`dict.pop(id, None)`) is idempotent and
a no-op when the entry is already absent. -/
theorem registry_lifecycle :
    (∀ (reg : Registry) (job_id dir vid sub : String) (cfg : Cfg)
        (ph rh wh : Nat) (p : Proc),
      lookup (softmux_vid reg job_id dir vid sub ph rh wh p).registryDuring job_id
          = some ⟨ph, [rh, wh], "soft"⟩ ∧
      lookup (softmux_vid reg job_id dir vid sub ph rh wh p).registryAfter job_id
          = none ∧
      lookup (hardmux_vid reg job_id dir cfg vid sub ph rh wh p).registryDuring job_id
          = some ⟨ph, [rh, wh], "hard"⟩ ∧
      lookup (hardmux_vid reg job_id dir cfg vid sub ph rh wh p).registryAfter job_id
          = none) ∧
    (∀ (r : Registry) (id : String), unregister (unregister r id) id = unregister r id) ∧
    (∀ (r : Registry) (id : String), lookup r id = none → unregister r id = r) := by
  refine ⟨?_, ?_, ?_⟩
  · intro reg job_id dir vid sub cfg ph rh wh p
    refine ⟨?_, ?_, ?_, ?_⟩ <;>
      simp [softmux_vid, hardmux_vid, lookup, register, unregister]
  · intro r id
    funext k
    by_cases hk : k = id <;> simp [unregister, hk]
  · intro r id h
    funext k
    by_cases hk : k = id
    · subst hk
      simp only [unregister, if_pos rfl]
      exact (h : r k = none).symm
    · simp [unregister, hk]

/-- Witness for C8's theorem: concrete instantiation, with the no-op
hypothesis discharged at the empty registry. -/
theorem registry_lifecycle_witness :
    lookup (softmux_vid emptyRegistry "job1" "downloads" "movie.mp4" "subs.srt"
        7 8 9 ⟨0, ""⟩).registryDuring "job1" = some ⟨7, [8, 9], "soft"⟩ ∧
    lookup (softmux_vid emptyRegistry "job1" "downloads" "movie.mp4" "subs.srt"
        7 8 9 ⟨0, ""⟩).registryAfter "job1" = none ∧
    lookup emptyRegistry "job1" = none ∧
    unregister emptyRegistry "job1" = emptyRegistry :=
  ⟨(registry_lifecycle.1 emptyRegistry "job1" "downloads" "movie.mp4" "subs.srt"
      emptyCfg 7 8 9 ⟨0, ""⟩).1,
   (registry_lifecycle.1 emptyRegistry "job1" "downloads" "movie.mp4" "subs.srt"
      emptyCfg 7 8 9 ⟨0, ""⟩).2.1,
   rfl,
   registry_lifecycle.2.2 emptyRegistry "job1" rfl⟩

/-! ## Claim C6 -/

/-- Claim C6: on a zero exit code each runner returns the resolved output
filename — the input's base name (`os.path.splitext(vid_filename)[0]`)
followed by the variant suffix and extension: `_soft.mkv` for the
stream-copy variant, `_hard.mp4` for the filtered-reencode variant. -/
theorem zero_exit_returns_output_filename :
    ∀ (reg : Registry) (job_id dir vid sub : String) (cfg : Cfg)
      (ph rh wh : Nat) (p : Proc),
      p.returncode = 0 →
      (softmux_vid reg job_id dir vid sub ph rh wh p).ret
          = MuxRet.filename ((splitext vid).1 ++ "_soft.mkv") ∧
      (hardmux_vid reg job_id dir cfg vid sub ph rh wh p).ret
          = MuxRet.filename ((splitext vid).1 ++ "_hard.mp4") := by
  intro reg job_id dir vid sub cfg ph rh wh p h
  constructor <;> simp [softmux_vid, hardmux_vid, h]

/-- Witness for C6: a stream-copy job on `movie.mp4` whose tool exits 0
returns `movie_soft.mkv`, and the re-encode variant returns
`movie_hard.mp4`. -/
theorem zero_exit_returns_output_filename_witness :
    (softmux_vid emptyRegistry "job1" "downloads" "movie.mp4" "subs.srt"
        0 1 2 ⟨0, ""⟩).ret = MuxRet.filename "movie_soft.mkv" ∧
    (hardmux_vid emptyRegistry "job1" "downloads" emptyCfg "movie.mp4" "subs.srt"
        0 1 2 ⟨0, ""⟩).ret = MuxRet.filename "movie_hard.mp4" := by
  have h := zero_exit_returns_output_filename emptyRegistry "job1" "downloads"
    "movie.mp4" "subs.srt" emptyCfg 0 1 2 ⟨0, ""⟩ rfl
  refine ⟨?_, ?_⟩
  · rw [h.1]; decide
  · rw [h.2]; decide

/-! ## Claim C7 -/

/-- Claim C7 counterexample: on a non-zero exit the runner returns the bare
Python `False` — a sentinel that does not carry the decoded remaining
stderr text: the returned value is identical for two runs whose remaining
stderr texts differ, so no stderr text is carried in the return value. -/
theorem failure_sentinel_counterexample :
    (hardmux_vid emptyRegistry "job1" "downloads" emptyCfg "a.mp4" "s.srt"
        0 1 2 ⟨2, "boom"⟩).ret = MuxRet.failure ∧
    (hardmux_vid emptyRegistry "job1" "downloads" emptyCfg "a.mp4" "s.srt"
        0 1 2 ⟨2, "boom"⟩).ret
      = (hardmux_vid emptyRegistry "job1" "downloads" emptyCfg "a.mp4" "s.srt"
        0 1 2 ⟨2, "zap"⟩).ret := by
  exact ⟨rfl, rfl⟩

/-- Claim C7 amended: on a non-zero exit the runner reports the decoded
remaining stderr text verbatim inside the failure notification (wrapped in
an HTML `pre` block) and returns the bare failure sentinel `False` to the
caller — the sentinel itself carries no stderr text. -/
theorem nonzero_exit_reports_stderr_and_returns_failure :
    ∀ (reg : Registry) (job_id dir vid sub : String) (cfg : Cfg)
      (ph rh wh : Nat) (p : Proc),
      p.returncode ≠ 0 →
      ((softmux_vid reg job_id dir vid sub ph rh wh p).ret = MuxRet.failure ∧
       (softmux_vid reg job_id dir vid sub ph rh wh p).failMsg
          = some ("❌ Error during soft-mux!\n\n<pre>" ++ p.remainingStderr ++ "</pre>")) ∧
      ((hardmux_vid reg job_id dir cfg vid sub ph rh wh p).ret = MuxRet.failure ∧
       (hardmux_vid reg job_id dir cfg vid sub ph rh wh p).failMsg
          = some ("❌ Error during hard-mux!\n\n<pre>" ++ p.remainingStderr ++ "</pre>")) := by
  intro reg job_id dir vid sub cfg ph rh wh p h
  refine ⟨⟨?_, ?_⟩, ⟨?_, ?_⟩⟩ <;> simp [softmux_vid, hardmux_vid, h]

/-- Witness for C7's amended theorem: a filtered-reencode job with default
settings whose tool exits 2. -/
theorem nonzero_exit_reports_stderr_and_returns_failure_witness :
    (hardmux_vid emptyRegistry "job1" "downloads" emptyCfg "a.mp4" "s.srt"
        0 1 2 ⟨2, "boom"⟩).ret = MuxRet.failure ∧
    (hardmux_vid emptyRegistry "job1" "downloads" emptyCfg "a.mp4" "s.srt"
        0 1 2 ⟨2, "boom"⟩).failMsg
      = some ("❌ Error during hard-mux!\n\n<pre>" ++ "boom" ++ "</pre>") :=
  (nonzero_exit_reports_stderr_and_returns_failure emptyRegistry "job1" "downloads"
    "a.mp4" "s.srt" emptyCfg 0 1 2 ⟨2, "boom"⟩ (by decide)).2

/-! ## Claim C10 -/

/-- Claim C10: the rendered progress summary depends only on the `size`,
`time` and `speed` fields of the snapshot, and each of these fields that
is individually absent — the others arbitrary — is rendered as the
literal placeholder `N/A` in its slot while the other slots render as
usual; in particular, when all three are absent every slot is `N/A`
(rendering is a total function, so an absent field never causes a
failure). -/
theorem render_shows_only_size_time_speed :
    (∀ items1 items2 : List (Field × List Char),
      snapshotGet items1 Field.size = snapshotGet items2 Field.size →
      snapshotGet items1 Field.time = snapshotGet items2 Field.time →
      snapshotGet items1 Field.speed = snapshotGet items2 Field.speed →
      renderProgress items1 = renderProgress items2) ∧
    (∀ items : List (Field × List Char),
      snapshotGet items Field.size = none →
      renderProgress items
        = "🔄 <b>Progress</b>\n• Size   : N/A\n• Time   : ".data
            ++ (snapshotGet items Field.time).getD "N/A".data
            ++ "\n• Speed  : ".data
            ++ (snapshotGet items Field.speed).getD "N/A".data) ∧
    (∀ items : List (Field × List Char),
      snapshotGet items Field.time = none →
      renderProgress items
        = "🔄 <b>Progress</b>\n• Size   : ".data
            ++ (snapshotGet items Field.size).getD "N/A".data
            ++ "\n• Time   : N/A\n• Speed  : ".data
            ++ (snapshotGet items Field.speed).getD "N/A".data) ∧
    (∀ items : List (Field × List Char),
      snapshotGet items Field.speed = none →
      renderProgress items
        = "🔄 <b>Progress</b>\n• Size   : ".data
            ++ (snapshotGet items Field.size).getD "N/A".data
            ++ "\n• Time   : ".data
            ++ (snapshotGet items Field.time).getD "N/A".data
            ++ "\n• Speed  : N/A".data) ∧
    (∀ items : List (Field × List Char),
      snapshotGet items Field.size = none →
      snapshotGet items Field.time = none →
      snapshotGet items Field.speed = none →
      renderProgress items
        = "🔄 <b>Progress</b>\n• Size   : N/A\n• Time   : N/A\n• Speed  : N/A".data) := by
  refine ⟨?_, ?_, ?_, ?_, ?_⟩
  · intro items1 items2 h1 h2 h3
    unfold renderProgress
    rw [h1, h2, h3]
  · intro items h1
    unfold renderProgress
    rw [h1]
    rfl
  · intro items h2
    unfold renderProgress
    rw [h2]
    simp only [List.append_assoc]
    rfl
  · intro items h3
    unfold renderProgress
    rw [h3]
    simp only [List.append_assoc]
    rfl
  · intro items h1 h2 h3
    unfold renderProgress
    rw [h1, h2, h3]
    decide

/-- Witness for C10: a mixed snapshot holding only `size` renders the
stored size value with `N/A` in the absent `time` and `speed` slots, and
a snapshot holding only `frame` renders all three placeholders. -/
theorem render_shows_only_size_time_speed_witness :
    renderProgress [(Field.size, "2048kB".data)]
        = "🔄 <b>Progress</b>\n• Size   : 2048kB\n• Time   : N/A\n• Speed  : N/A".data ∧
    renderProgress [(Field.frame, "100".data)]
        = "🔄 <b>Progress</b>\n• Size   : N/A\n• Time   : N/A\n• Speed  : N/A".data := by
  constructor
  · have h := render_shows_only_size_time_speed.2.2.1 [(Field.size, "2048kB".data)] rfl
    rw [h]
    decide
  · exact render_shows_only_size_time_speed.2.2.2.2 [(Field.frame, "100".data)] rfl rfl rfl

/-! ## Claim C1 -/

/-- Claim C1 counterexample: with a settings store that lacks every value,
the hard-mux argument vector still contains the quality flag `-crf` (with
the default value `27`), the `-preset` and `-c:v` flags, and the filter
chain contains `scale=1920:1080` — the defaults are concrete values, not
"unchanged" sentinels that omit the filter or flag. -/
theorem hardmux_default_flags_counterexample :
    emptyCfg "crf" = none ∧ emptyCfg "resolution" = none ∧
    "-crf" ∈ (hardmux_vid emptyRegistry "job1" "downloads" emptyCfg "v.mp4" "s.srt"
        0 1 2 ⟨0, ""⟩).args ∧
    "27" ∈ (hardmux_vid emptyRegistry "job1" "downloads" emptyCfg "v.mp4" "s.srt"
        0 1 2 ⟨0, ""⟩).args ∧
    "scale=1920:1080" ∈ hardmux_vf emptyCfg "downloads/s.srt" := by
  refine ⟨rfl, rfl, ?_, ?_, ?_⟩ <;> decide

/-- Claim C1 amended: only the frame-rate setting defaults to the
"unchanged" sentinel `'original'` that omits its filter; the resolution
defaults to `'1920:1080'`, so a store lacking a resolution still gets a
`scale` filter (omitted only when the stored value is `'original'`), and
the codec, quality and preset flags are always present with defaults
`'libx264'`, `'27'`, `'faster'` regardless of the store. -/
theorem hardmux_default_flags :
    ∀ (cfg : Cfg) (v s o : String),
      ("-c:v" ∈ hardmux_args cfg v s o ∧ "-preset" ∈ hardmux_args cfg v s o ∧
        "-crf" ∈ hardmux_args cfg v s o) ∧
      (cfg "fps" = none → ∀ x ∈ hardmux_vf cfg s, x.data.take 4 ≠ "fps=".data) ∧
      (cfg "fps" = some "original" →
        ∀ x ∈ hardmux_vf cfg s, x.data.take 4 ≠ "fps=".data) ∧
      (cfg "resolution" = none → "scale=1920:1080" ∈ hardmux_vf cfg s) ∧
      (cfg "resolution" = some "original" →
        ∀ x ∈ hardmux_vf cfg s, x.data.take 6 ≠ "scale=".data) := by
  intro cfg v s o
  refine ⟨⟨?_, ?_, ?_⟩, ?_, ?_, ?_, ?_⟩
  · simp [hardmux_args]
  · simp [hardmux_args]
  · simp [hardmux_args]
  · intro hfps x hx
    rw [hardmux_vf] at hx
    simp only [cfgGet, hfps, Option.getD_none, ne_eq, not_true_eq_false, ite_false,
      List.append_nil] at hx
    rcases List.mem_cons.mp hx with h | h
    · subst h
      intro hc
      rw [String.data_append, List.take_append_of_le_length (by decide)] at hc
      exact absurd hc (by decide)
    · split at h
      · rcases List.mem_singleton.mp h with rfl
        intro hc
        rw [String.data_append, List.take_append_of_le_length (by decide)] at hc
        exact absurd hc (by decide)
      · exact absurd h (List.not_mem_nil x)
  · intro hfps x hx
    rw [hardmux_vf] at hx
    simp only [cfgGet, hfps, Option.getD_some, ne_eq, not_true_eq_false, ite_false,
      List.append_nil] at hx
    rcases List.mem_cons.mp hx with h | h
    · subst h
      intro hc
      rw [String.data_append, List.take_append_of_le_length (by decide)] at hc
      exact absurd hc (by decide)
    · split at h
      · rcases List.mem_singleton.mp h with rfl
        intro hc
        rw [String.data_append, List.take_append_of_le_length (by decide)] at hc
        exact absurd hc (by decide)
      · exact absurd h (List.not_mem_nil x)
  · intro hres
    rw [hardmux_vf]
    refine List.mem_cons_of_mem _ (List.mem_append_left _ ?_)
    simp only [cfgGet, hres, Option.getD_none]
    rw [if_pos (by decide : ("1920:1080" : String) ≠ "original")]
    exact List.mem_singleton.mpr (by decide)
  · intro hres x hx
    rw [hardmux_vf] at hx
    simp only [cfgGet, hres, Option.getD_some, ne_eq, not_true_eq_false, ite_false,
      List.nil_append] at hx
    rcases List.mem_cons.mp hx with h | h
    · subst h
      intro hc
      rw [String.data_append, List.take_append_of_le_length (by decide)] at hc
      exact absurd hc (by decide)
    · split at h
      · rcases List.mem_singleton.mp h with rfl
        intro hc
        have hc4 := congrArg (List.take 4) hc
        rw [List.take_take] at hc4
        rw [String.data_append] at hc4
        rw [List.take_append_of_le_length (by decide)] at hc4
        exact absurd hc4 (by decide)
      · exact absurd h (List.not_mem_nil x)

/-- Witness for C1's amended theorem at the empty settings store. -/
theorem hardmux_default_flags_witness :
    "-crf" ∈ hardmux_args emptyCfg "v" "s" "o" ∧
    (∀ x ∈ hardmux_vf emptyCfg "s", x.data.take 4 ≠ "fps=".data) ∧
    "scale=1920:1080" ∈ hardmux_vf emptyCfg "s" :=
  ⟨(hardmux_default_flags emptyCfg "v" "s" "o").1.2.2,
   (hardmux_default_flags emptyCfg "v" "s" "o").2.1 rfl,
   (hardmux_default_flags emptyCfg "v" "s" "o").2.2.2.1 rfl⟩

/-! ## Claim C3 -/

lemma splitGo_cons_delim_false {b : Nat} {rest cur : List Nat} (hb : isDelim b = true) :
    splitGo (b :: rest) cur false = cur.reverse :: splitGo rest [] true := by
  simp [splitGo, hb]

lemma splitGo_cons_delim_true {b : Nat} {rest cur : List Nat} (hb : isDelim b = true) :
    splitGo (b :: rest) cur true = splitGo rest [] true := by
  simp [splitGo, hb]

lemma splitGo_cons_nondelim {b : Nat} {rest cur : List Nat} {inRun : Bool}
    (hb : isDelim b = false) :
    splitGo (b :: rest) cur inRun = splitGo rest (b :: cur) false := by
  cases inRun <;> simp [splitGo, hb]

lemma splitGo_ne_nil : ∀ (l cur : List Nat) (inRun : Bool), splitGo l cur inRun ≠ [] := by
  intro l
  induction l with
  | nil => intro cur inRun; simp [splitGo]
  | cons b rest ih =>
    intro cur inRun
    by_cases hb : isDelim b = true
    · cases inRun
      · rw [splitGo_cons_delim_false hb]; simp
      · rw [splitGo_cons_delim_true hb]; exact ih [] true
    · simp only [Bool.not_eq_true] at hb
      rw [splitGo_cons_nondelim hb]
      exact ih (b :: cur) false

lemma splitGo_flatten :
    ∀ (l cur : List Nat),
      (splitGo l cur false).flatten = cur.reverse ++ stripDelims l ∧
      (splitGo l [] true).flatten = stripDelims l := by
  intro l
  induction l with
  | nil =>
    intro cur
    constructor <;> simp [splitGo, stripDelims]
  | cons b rest ih =>
    intro cur
    by_cases hb : isDelim b = true
    · constructor
      · rw [splitGo_cons_delim_false hb, List.flatten_cons, (ih []).2]
        simp [stripDelims, hb]
      · rw [splitGo_cons_delim_true hb, (ih []).2]
        simp [stripDelims, hb]
    · simp only [Bool.not_eq_true] at hb
      constructor
      · rw [splitGo_cons_nondelim hb, (ih (b :: cur)).1]
        simp [stripDelims, hb]
      · rw [splitGo_cons_nondelim hb, (ih [b]).1]
        simp [stripDelims, hb]

lemma splitGo_parts_nondelim :
    ∀ (l cur : List Nat) (inRun : Bool),
      cur.all (fun c => ! isDelim c) = true →
      ∀ x ∈ splitGo l cur inRun, x.all (fun c => ! isDelim c) = true := by
  intro l
  induction l with
  | nil =>
    intro cur inRun hcur x hx
    simp only [splitGo, List.mem_singleton] at hx
    subst hx
    simpa using hcur
  | cons b rest ih =>
    intro cur inRun hcur x hx
    by_cases hb : isDelim b = true
    · cases inRun
      · rw [splitGo_cons_delim_false hb] at hx
        rcases List.mem_cons.mp hx with h | h
        · subst h; simpa using hcur
        · exact ih [] true rfl x h
      · rw [splitGo_cons_delim_true hb] at hx
        exact ih [] true rfl x hx
    · simp only [Bool.not_eq_true] at hb
      rw [splitGo_cons_nondelim hb] at hx
      refine ih (b :: cur) false ?_ x hx
      simp [hb, hcur]

lemma splitDelims_ne_nil (d : List Nat) : splitDelims d ≠ [] :=
  splitGo_ne_nil d [] false

lemma splitDelims_flatten (d : List Nat) : (splitDelims d).flatten = stripDelims d := by
  have h := (splitGo_flatten d []).1
  simpa [splitDelims] using h

lemma splitDelims_parts_nondelim (d : List Nat) :
    ∀ x ∈ splitDelims d, x.all (fun c => ! isDelim c) = true :=
  splitGo_parts_nondelim d [] false rfl

lemma splitDelims_getLast_nondelim (d : List Nat) :
    ((splitDelims d).getLast?.getD []).all (fun c => ! isDelim c) = true := by
  cases h : (splitDelims d).getLast? with
  | none => simp
  | some x =>
    simp only [Option.getD_some]
    exact splitDelims_parts_nondelim d x (List.mem_of_getLast?_eq_some h)

lemma dropLast_flatten_getLast (L : List (List Nat)) (h : L ≠ []) :
    L.dropLast.flatten ++ (L.getLast?.getD []) = L.flatten := by
  conv_rhs => rw [← List.dropLast_append_getLast h]
  rw [List.flatten_append, List.getLast?_eq_getLast_of_ne_nil h]
  simp

lemma stripDelims_append (a b : List Nat) :
    stripDelims (a ++ b) = stripDelims a ++ stripDelims b := by
  simp [stripDelims]

lemma stripDelims_of_nondelim {l : List Nat} (h : l.all (fun c => ! isDelim c) = true) :
    stripDelims l = l := by
  rw [stripDelims, List.filter_eq_self]
  intro a ha
  exact (List.all_eq_true.mp h) a ha

lemma readlinesGo_conservation :
    ∀ (chunks : List (List Nat)) (data : List Nat),
      (readlinesGo chunks data).flatten ++ stripDelims (finalBuf chunks data)
        = stripDelims (data ++ chunks.flatten) := by
  intro chunks
  induction chunks with
  | nil => intro data; simp [readlinesGo, finalBuf]
  | cons c cs ih =>
    intro data
    simp only [readlinesGo, finalBuf, List.flatten_append, List.flatten_cons]
    rw [List.append_assoc, ih (((splitDelims data).getLast?.getD []) ++ c)]
    rw [stripDelims_append, stripDelims_append,
      stripDelims_of_nondelim (splitDelims_getLast_nondelim data)]
    rw [stripDelims_append, stripDelims_append]
    rw [← splitDelims_flatten data,
      ← dropLast_flatten_getLast _ (splitDelims_ne_nil data)]
    simp [List.append_assoc]

lemma finalBuf_nondelim :
    ∀ (cs : List (List Nat)) (data : List Nat),
      (finalBuf (cs ++ [[]]) data).all (fun c => ! isDelim c) = true := by
  intro cs
  induction cs with
  | nil =>
    intro data
    simp only [List.nil_append, finalBuf, List.append_nil]
    exact splitDelims_getLast_nondelim data
  | cons c cs ih =>
    intro data
    simp only [List.cons_append, finalBuf]
    exact ih _

lemma readlinesGo_nondelim :
    ∀ (chunks : List (List Nat)) (data : List Nat),
      ∀ l ∈ readlinesGo chunks data, l.all (fun b => ! isDelim b) = true := by
  intro chunks
  induction chunks with
  | nil => intro data l hl; simp [readlinesGo] at hl
  | cons c cs ih =>
    intro data l hl
    simp only [readlinesGo] at hl
    rcases List.mem_append.mp hl with h | h
    · exact splitDelims_parts_nondelim data l ((List.dropLast_sublist _).subset h)
    · exact ih _ l h

/-- Claim C3 counterexample: for the stream `a CR LF b LF` delivered as the
two chunks `[a, CR]` and `[LF, b, LF]`, the demuxer yields the spurious
empty line `[]` between `[97]` and `[98]` — the CR LF run straddling the
chunk boundary acts as two delimiters, not one, so the yielded lines are
not the segments between maximal CR/LF runs of the stream. -/
theorem readlines_chunk_boundary_counterexample :
    readlines [[97, 13], [10, 98, 10]] = [[97], [], [98]] ∧
    specSingleDelimiterLines (List.flatten [[97, 13], [10, 98, 10]]) = [[97], [98]] ∧
    readlines [[97, 13], [10, 98, 10]]
      ≠ specSingleDelimiterLines (List.flatten [[97, 13], [10, 98, 10]]) := by
  refine ⟨by decide, by decide, by decide⟩

/-- Claim C3 amended: the demuxer never drops or duplicates a
non-delimiter byte — the concatenation of the yielded lines followed by
the discarded unterminated trailing fragment is exactly the stream with
its CR/LF bytes removed, for every partition into chunks; every yielded
line is CR/LF-free; and when the whole stream arrives in a single read the
yielded lines are exactly the segments between maximal CR/LF runs (each
run one delimiter, trailing fragment discarded).  A run that straddles a
chunk boundary, however, acts as several delimiters and produces spurious
empty lines (see the counterexample). -/
theorem readlines_byte_conservation :
    (∀ chunks : List (List Nat),
      (readlines chunks).flatten ++ discardedTail chunks = stripDelims chunks.flatten) ∧
    (∀ chunk : List Nat, readlines [chunk] = specSingleDelimiterLines chunk) ∧
    (∀ chunks : List (List Nat), ∀ l ∈ readlines chunks,
      l.all (fun b => ! isDelim b) = true) := by
  refine ⟨?_, ?_, ?_⟩
  · intro chunks
    have h := readlinesGo_conservation (chunks ++ [[]]) []
    rw [List.nil_append] at h
    rw [readlines, discardedTail,
      ← stripDelims_of_nondelim (finalBuf_nondelim chunks [])]
    rw [h]
    simp [List.flatten_append]
  · intro chunk
    show readlinesGo ([chunk] ++ [[]]) [] = (splitDelims chunk).dropLast
    have h0 : splitDelims [] = [[]] := rfl
    simp only [List.cons_append, List.nil_append, readlinesGo, h0]
    simp [readlinesGo]
  · intro chunks l hl
    exact readlinesGo_nondelim _ _ l hl

/-- Witness for C3's amended theorem: conservation on a concrete chunked
stream, and the CR/LF-freeness of a concrete yielded line. -/
theorem readlines_byte_conservation_witness :
    (readlines [[97, 13], [10, 98, 10]]).flatten ++ discardedTail [[97, 13], [10, 98, 10]]
        = stripDelims (List.flatten [[97, 13], [10, 98, 10]]) ∧
    ([97] : List Nat).all (fun b => ! isDelim b) = true :=
  ⟨readlines_byte_conservation.1 [[97, 13], [10, 98, 10]],
   readlines_byte_conservation.2.2 [[97, 13], [10, 98, 10]] [97] (by decide)⟩

/-! ## Claim C9 -/

lemma read_stderrGo_fst_independent :
    ∀ (lines : List (List Char)) (edit1 edit2 : Nat → Except String Unit)
      (elapsedAt : Nat → ℚ) (i attempts : Nat),
      (read_stderrGo edit1 elapsedAt i attempts lines).map Prod.fst
        = (read_stderrGo edit2 elapsedAt i attempts lines).map Prod.fst := by
  intro lines
  induction lines with
  | nil => intro e1 e2 el i a; rfl
  | cons l ls ih =>
    intro e1 e2 el i a
    cases hp : parse_progress l with
    | none =>
      simp only [read_stderrGo, hp]
      exact ih e1 e2 el (i + 1) a
    | some items =>
      simp only [read_stderrGo, hp]
      by_cases ht : throttleFires (el i) = true
      · simp only [ht, if_true]
        cases e1 a <;> cases e2 a <;>
          · simp only [List.map_cons]
            exact congrArg _ (ih e1 e2 el (i + 1) (a + 1))
      · simp only [Bool.not_eq_true] at ht
        simp only [ht, Bool.false_eq_true, if_false]
        exact ih e1 e2 el (i + 1) a

/-- Claim C9: a failure raised by the notifier's edit call is swallowed by
the bare `except: pass` and never propagates: the sequence of progress
texts the output-reader renders and attempts to deliver — and hence the
lines it consumes — is identical for any two notifiers, in particular for
an always-failing and an always-succeeding one. -/
theorem notifier_failure_swallowed :
    ∀ (edit1 edit2 : Nat → Except String Unit) (elapsedAt : Nat → ℚ)
      (lines : List (List Char)),
      (read_stderr edit1 elapsedAt lines).map Prod.fst
        = (read_stderr edit2 elapsedAt lines).map Prod.fst ∧
      (read_stderr edit1 elapsedAt lines).length
        = (read_stderr edit2 elapsedAt lines).length := by
  intro e1 e2 el lines
  have h := read_stderrGo_fst_independent lines e1 e2 el 0 0
  refine ⟨h, ?_⟩
  have h1 := congrArg List.length h
  simpa [List.length_map] using h1

/-! ## Claim C4 -/

/-- Claim C4 counterexample: in the line `size=time=3` the field `time`
occurs as `time=3` with the whitespace-free value `3`, yet the snapshot
does not contain `time` at all — the left-to-right non-overlapping scan
consumes `time=3` as the value of `size`, so the snapshot does not contain
exactly the fields that occur. -/
theorem parse_progress_overlap_counterexample :
    occursB "size=time=3".data Field.time "3".data = true ∧
    parse_progress "size=time=3".data = some [(Field.size, "time=3".data)] ∧
    snapshotGet [(Field.size, "time=3".data)] Field.time = none := by
  refine ⟨by decide, by decide, by decide⟩

/-- Claim C4 amended: the extractor returns the no-match signal if and
only if no field occurs as `field=value` (whitespace around `=` and
arbitrary surrounding text tolerated, value a maximal nonempty
whitespace-free token); every field/value pair of the returned snapshot is
such an occurrence, and the snapshot is nonempty.  The snapshot however
contains only the matches of the non-overlapping left-to-right scan — an
occurrence lying inside an earlier match's value is not counted, so
"exactly the fields that occur" and "last occurrence wins" hold only among
those non-overlapping matches (last match wins in the dict). -/
theorem parse_progress_occurrences :
    ∀ (line : List Char),
      (parse_progress line = none ↔ ∀ f v, occursB line f v = false) ∧
      (∀ items, parse_progress line = some items →
        items ≠ [] ∧ ∀ f v, (f, v) ∈ items → occursB line f v = true) := by
  intro line
  have hitems : ∀ items, parse_progress line = some items →
      items = scanMatches line ∧ scanMatches line ≠ [] := by
    intro items hsome
    unfold parse_progress at hsome
    by_cases h : scanMatches line = []
    · rw [if_pos h] at hsome
      exact absurd hsome (by simp)
    · rw [if_neg h] at hsome
      exact ⟨(Option.some.inj hsome).symm, h⟩
  have hsound : ∀ f v, (f, v) ∈ scanMatches line → occursB line f v = true := by
    intro f v hmem
    obtain ⟨i, r, hir⟩ := scanGo_mem_occurs line.length line le_rfl f v hmem
    exact occursB_of_tryMatchField hir
  constructor
  · constructor
    · intro hnone f v
      have hscan : scanMatches line = [] := by
        unfold parse_progress at hnone
        by_cases h : scanMatches line = []
        · exact h
        · rw [if_neg h] at hnone
          exact absurd hnone (by simp)
      rw [Bool.eq_false_iff]
      intro hocc
      obtain ⟨i, r, hir⟩ := tryMatchField_of_occursB hocc
      have hnom := scanGo_eq_nil_no_match line.length line le_rfl hscan i
      rw [tryMatchField_eq_none_of_tryMatch hnom f] at hir
      exact absurd hir (by simp)
    · intro hall
      cases hp : parse_progress line with
      | none => rfl
      | some items =>
        exfalso
        obtain ⟨hEq, hne⟩ := hitems items hp
        cases hsm : scanMatches line with
        | nil => exact hne hsm
        | cons p ps =>
          have hmem : (p.1, p.2) ∈ scanMatches line := by
            rw [hsm]; simp
          have := hsound p.1 p.2 hmem
          rw [hall p.1 p.2] at this
          exact absurd this (by simp)
  · intro items hsome
    obtain ⟨hEq, hne⟩ := hitems items hsome
    subst hEq
    exact ⟨hne, hsound⟩

/-- Witness for C4's amended theorem: for the line `frame=12` the snapshot
is `{frame: 12}` and the theorem yields that `frame=12` occurs. -/
theorem parse_progress_occurrences_witness :
    occursB "frame=12".data Field.frame "12".data = true :=
  (((parse_progress_occurrences "frame=12".data).2 [(Field.frame, "12".data)]
      (by decide)).2) Field.frame "12".data (by decide)

end VkQueue
